import Mathlib

/-!
Verification development for the jsonlint-cli source (src/index.js).

The JavaScript source is shallowly embedded: JSON values become an inductive
type, the key sorter, pretty printer, error translator, settings merge and the
per-document lint pipeline become Lean functions mirroring the source line by
line.  External collaborators (the jsonlint parser, the jjv validation engine,
schema retrieval, path resolution) are parameters of the embedded functions,
as the source treats them as black boxes.
-/

/-- JSON value trees, the data model shared by the key sorter, the validation
engine adapter and the error translator.  Objects are ordered association
lists, mirroring JavaScript object key enumeration order. -/
inductive Json where
  | null : Json
  | bool (b : Bool) : Json
  | num (n : Int) : Json
  | str (s : String) : Json
  | arr (items : List Json) : Json
  | obj (entries : List (String × Json)) : Json

/-- Code-unit-wise comparison of two character lists, modelling the default
JavaScript string comparison used by `Array.prototype.sort()`. -/
def jsCharListLe : List Char → List Char → Bool
  | [], _ => true
  | _ :: _, [] => false
  | a :: as, b :: bs =>
      if a < b then true
      else if b < a then false
      else jsCharListLe as bs

/-- Lexicographic order on strings by code point, modelling the default
comparator of `Array.prototype.sort()` on an array of key strings. -/
def jsStrLe (a b : String) : Bool := jsCharListLe a.data b.data

/-- Insert a key into an already sorted key list. -/
def orderedInsertJs (a : String) : List String → List String
  | [] => [a]
  | b :: l => if jsStrLe a b then a :: b :: l else b :: orderedInsertJs a l

/-- Sorting of the collected key array, modelling `a.sort()` in `sort`
(src/index.js line 135): stable comparison-sort under `jsStrLe`. -/
def insertionSortJs : List String → List String
  | [] => []
  | a :: l => orderedInsertJs a (insertionSortJs l)

/-- Embedding of `sort` (src/index.js lines 118-142): arrays map `sort` over
their elements, non-objects pass through, objects are rebuilt by collecting the
keys, sorting them (JavaScript `Array.prototype.sort`, modelled by insertion
sort under the lexicographic string order) and re-inserting each key with the
recursively sorted looked-up value (`sorted[a[key]] = sort(o[a[key]])`). -/
def sortJson : Json → Json
  | .null => .null
  | .bool b => .bool b
  | .num n => .num n
  | .str s => .str s
  | .arr items => .arr (items.attach.map (fun x => sortJson x.1))
  | .obj entries =>
      let a := insertionSortJs (entries.map Prod.fst)
      .obj (a.map (fun k => (k, sortJson ((entries.lookup k).getD .null))))
decreasing_by
  · have h1 := List.sizeOf_lt_of_mem x.2
    simp only [Json.arr.sizeOf_spec]
    omega
  · have key : ∀ (es : List (String × Json)) (k : String),
        sizeOf ((es.lookup k).getD Json.null) ≤ sizeOf es := by
      intro es
      induction es with
      | nil => intro k; simp [List.lookup]
      | cons p es ih =>
        intro k
        cases p with
        | mk a b =>
          cases hb : (k == a) with
          | true => simp [List.lookup, hb]; omega
          | false =>
            have := ih k
            simp [List.lookup, hb]
            omega
    have := key entries k
    simp only [Json.obj.sizeOf_spec]
    omega

/-- Well-formedness of a JSON value as produced by a JSON parse: every object
has pairwise distinct keys (JavaScript objects cannot hold duplicate keys). -/
def jsonWF : Json → Bool
  | .null => true
  | .bool _ => true
  | .num _ => true
  | .str _ => true
  | .arr items => items.attach.all (fun x => jsonWF x.1)
  | .obj entries =>
      decide (entries.map Prod.fst).Nodup &&
        entries.attach.all (fun x => jsonWF x.1.2)
decreasing_by
  · have h1 := List.sizeOf_lt_of_mem x.2
    simp only [Json.arr.sizeOf_spec]
    omega
  · have h1 := List.sizeOf_lt_of_mem x.2
    have h2 : sizeOf x.1.2 < sizeOf x.1 := by
      obtain ⟨⟨a, b⟩, hm⟩ := x
      simp only [Prod.mk.sizeOf_spec] <;> omega
    simp only [Json.obj.sizeOf_spec]
    omega

/-- The multiset (as a list) of leaf values of a JSON tree: atoms are their own
single leaf, arrays and objects collect the leaves of their members in order. -/
def leaves : Json → List Json
  | .null => [.null]
  | .bool b => [.bool b]
  | .num n => [.num n]
  | .str s => [.str s]
  | .arr items => items.attach.flatMap (fun x => leaves x.1)
  | .obj entries => entries.attach.flatMap (fun x => leaves x.1.2)
decreasing_by
  · have h1 := List.sizeOf_lt_of_mem x.2
    simp only [Json.arr.sizeOf_spec]
    omega
  · have h1 := List.sizeOf_lt_of_mem x.2
    have h2 : sizeOf x.1.2 < sizeOf x.1 := by
      obtain ⟨⟨a, b⟩, hm⟩ := x
      simp only [Prod.mk.sizeOf_spec] <;> omega
    simp only [Json.obj.sizeOf_spec]
    omega

/-- JavaScript truthiness test on a JSON value, modelling uses of `||` on
looked-up values in the source (`schema.properties || {}`, `prop[name] || ''`). -/
def jsFalsy : Json → Bool
  | .null => true
  | .bool b => !b
  | .num n => n == 0
  | .str s => s == ""
  | .arr _ => false
  | .obj _ => false

/-- JavaScript template-literal interpolation of a value (`${value}`): numbers
and strings print naturally, arrays join their members with a comma, plain
objects print as `[object Object]`. -/
def jsStr : Json → String
  | .null => "null"
  | .bool b => if b then "true" else "false"
  | .num n => toString n
  | .str s => s
  | .arr items => String.intercalate "," (items.attach.map (fun x => jsStr x.1))
  | .obj _ => "[object Object]"
decreasing_by
  have h1 := List.sizeOf_lt_of_mem x.2
  simp only [Json.arr.sizeOf_spec]
  omega

/-- Interpolation of a possibly-absent value: a missing JavaScript property
interpolates as the string `undefined`. -/
def jsStrOpt : Option Json → String
  | some v => jsStr v
  | none => "undefined"

/-- Modelling of `JSON.stringify` on a string, used by `lex.fallback` for
string-valued rule values (quotes the string and escapes the common
escape characters). -/
def jsonStringifyStr (s : String) : String :=
  "\"" ++ String.join (s.data.map (fun c =>
    if c = '"' then "\\\""
    else if c = '\\' then "\\\\"
    else if c = '\n' then "\\n"
    else if c = '\t' then "\\t"
    else if c = '\r' then "\\r"
    else String.singleton c)) ++ "\""

/-- Property access `j[k]` on a JSON value: a key lookup on objects, absent on
everything else. -/
def getField (j : Json) (k : String) : Option Json :=
  match j with
  | .obj es => es.lookup k
  | _ => none

/-- Modelling of `x || d` on a possibly-absent JavaScript value: the default is
taken when the property is missing or falsy. -/
def jsOrDefault (v : Option Json) (d : Json) : Json :=
  match v with
  | some x => if jsFalsy x then d else x
  | none => d

namespace lex

/-- Template of `lex.type` (src/index.js lines 145-147). -/
def type (key : String) (value : Json) : String :=
  "\"" ++ key ++ "\" must be of type \"" ++ jsStr value ++ "\""

/-- Template of `lex.minLength` (src/index.js lines 148-150). -/
def minLength (key : String) (value : Json) (ruleName : String) (ruleValue : Json) : String :=
  "\"" ++ key ++ "\" must be at least \"" ++ jsStr ruleValue ++ "\" characters"

/-- Template of `lex.maxLength` (src/index.js lines 151-153). -/
def maxLength (key : String) (value : Json) (ruleName : String) (ruleValue : Json) : String :=
  "\"" ++ key ++ "\" may be at most \"" ++ jsStr ruleValue ++ "\" characters"

/-- Template of `lex.minProperties` (src/index.js lines 154-156). -/
def minProperties (key : String) (value : Json) (ruleName : String) (ruleValue : Json) : String :=
  "\"" ++ key ++ "\" must hold at least \"" ++ jsStr ruleValue ++ "\" properties"

/-- Template of `lex.maxProperties` (src/index.js lines 157-159). -/
def maxProperties (key : String) (value : Json) (ruleName : String) (ruleValue : Json) : String :=
  "\"" ++ key ++ "\" may hold at most \"" ++ jsStr ruleValue ++ "\" properties"

/-- Template of `lex.patternProperties` (src/index.js lines 160-162). -/
def patternProperties (key : String) (value : Json) (ruleName : String) (ruleValue : Json) : String :=
  "\"" ++ key ++ "\" must hold \"" ++ jsStr ruleValue ++ "\" properties"

/-- Template of `lex.minItems` (src/index.js lines 163-165), transcribed
character for character from the source, including the spelling of the
word between `at` and the quoted rule value. -/
def minItems (key : String) (value : Json) (ruleName : String) (ruleValue : Json) : String :=
  "\"" ++ key ++ "\" must have at leat \"" ++ jsStr ruleValue ++ "\" items"

/-- Template of `lex.maxItems` (src/index.js lines 166-168). -/
def maxItems (key : String) (value : Json) (ruleName : String) (ruleValue : Json) : String :=
  "\"" ++ key ++ "\" may have at most \"" ++ jsStr ruleValue ++ "\" items"

/-- Template of `lex.required` (src/index.js lines 169-171). -/
def required (key : String) (value : Json) (name : String) : String :=
  "\"" ++ key ++ "\" is " ++ name ++ " but unset"

/-- Template of `lex.additional` (src/index.js lines 172-174); the source
template ends with a literal tab character after the word `key`. -/
def additional (key : String) (value : Json) (name : String) : String :=
  "\"" ++ key ++ "\" is not allowed as " ++ name ++ " key\t"

/-- Template of `lex.fallback` (src/index.js lines 175-178). -/
def fallback (key : String) (value : Json) (ruleName : String) (ruleValue : Json)
    (prop : Json) : String :=
  let ruleValueString :=
    match ruleValue with
    | .str s => jsonStringifyStr s
    | v => jsStr v
  "\"" ++ key ++ "\" does not meet rule \"" ++ ruleName ++ "=" ++ ruleValueString ++ "\" - " ++
    jsStrOpt (getField prop "description")

end lex

/-- Dispatch `lex[name] || lex.fallback` together with the uniform call
`formatter(key, validation[name], name, prop[name] || '', prop)` from
`schemaError` (src/index.js lines 189-201); formatters of smaller arity ignore
the surplus arguments exactly as in JavaScript. -/
def applyLex (name key : String) (value : Json) (ruleValue : Json) (prop : Json) : String :=
  if name = "type" then lex.type key value
  else if name = "minLength" then lex.minLength key value name ruleValue
  else if name = "maxLength" then lex.maxLength key value name ruleValue
  else if name = "minProperties" then lex.minProperties key value name ruleValue
  else if name = "maxProperties" then lex.maxProperties key value name ruleValue
  else if name = "patternProperties" then lex.patternProperties key value name ruleValue
  else if name = "minItems" then lex.minItems key value name ruleValue
  else if name = "maxItems" then lex.maxItems key value name ruleValue
  else if name = "required" then lex.required key value name
  else if name = "additional" then lex.additional key value name
  else lex.fallback key value name ruleValue prop

/-- Structured per-field failures returned by the validation engine
(`errors.validation` of jjv): for each offending field, in discovery order,
the violated rule names with their rule detail values. -/
abbrev VErrors := List (String × List (String × Json))

/-- Embedding of `schemaError` (src/index.js lines 181-204): one formatted
message per (field, violated rule) pair, fields in engine-discovery order and
rule names in per-field discovery order. -/
def schemaError (validation : VErrors) (schema : Json) : List String :=
  validation.flatMap (fun kv =>
    kv.2.map (fun nv =>
      let props := jsOrDefault (getField schema "properties") (Json.obj [])
      let prop := jsOrDefault (getField props kv.1) (Json.obj [])
      applyLex nv.1 kv.1 nv.2 (jsOrDefault (getField prop nv.1) (Json.str "")) prop))

/-- Concatenation of `n` copies of a string, the result of
`new Array(n + 1).join(s)` for a non-negative element count `n`. -/
def repeatStr (s : String) : Nat → String
  | 0 => ""
  | n + 1 => s ++ repeatStr s n

/-- Embedding of `repeat` (src/index.js lines 49-51):
`new Array(count + 1).join(s)`.  A negative array length
(`count + 1 < 0`) raises a `RangeError`, modelled by `none`; `count = -1`
builds the empty array and yields the empty string. -/
def repeatJs (s : String) (count : Int) : Option String :=
  if count + 1 < 0 then none
  else some (repeatStr s count.toNat)

/-- The string-literal toggle of `formatJson` (src/index.js lines 104-109): at
a double quote the in-string flag flips exactly when the character has a
predecessor (`i > 0`) and that predecessor is not a backslash. -/
def quoteToggle (prev : Option Char) (inString : Bool) : Bool :=
  match prev with
  | some p => if p = '\\' then inString else !inString
  | none => inString

/-- Character scan of `formatJson` (src/index.js lines 61-114), threading the
predecessor character, the indentation level and the in-string flag; `none`
models the `RangeError` escaping from `repeat`. -/
def formatAux (tab : String) : List Char → Option Char → Int → Bool → Option String
  | [], _, _, _ => some ""
  | c :: rest, prev, indentLevel, inString =>
      if c = '{' ∨ c = '[' then
        if inString then
          (formatAux tab rest (some c) indentLevel inString).map
            (fun r => String.singleton c ++ r)
        else
          match repeatJs tab (indentLevel + 1) with
          | none => none
          | some ind =>
              (formatAux tab rest (some c) (indentLevel + 1) inString).map
                (fun r => String.singleton c ++ "\n" ++ ind ++ r)
      else if c = '}' ∨ c = ']' then
        if inString then
          (formatAux tab rest (some c) indentLevel inString).map
            (fun r => String.singleton c ++ r)
        else
          match repeatJs tab (indentLevel - 1) with
          | none => none
          | some ind =>
              (formatAux tab rest (some c) (indentLevel - 1) inString).map
                (fun r => "\n" ++ ind ++ String.singleton c ++ r)
      else if c = ',' then
        if inString then
          (formatAux tab rest (some c) indentLevel inString).map
            (fun r => String.singleton c ++ r)
        else
          match repeatJs tab indentLevel with
          | none => none
          | some ind =>
              (formatAux tab rest (some c) indentLevel inString).map
                (fun r => ",\n" ++ ind ++ r)
      else if c = ':' then
        if inString then
          (formatAux tab rest (some c) indentLevel inString).map
            (fun r => String.singleton c ++ r)
        else
          (formatAux tab rest (some c) indentLevel inString).map
            (fun r => ": " ++ r)
      else if c = ' ' ∨ c = '\n' ∨ c = '\t' then
        if inString then
          (formatAux tab rest (some c) indentLevel inString).map
            (fun r => String.singleton c ++ r)
        else
          formatAux tab rest (some c) indentLevel inString
      else if c = '"' then
        (formatAux tab rest (some c) indentLevel (quoteToggle prev inString)).map
          (fun r => String.singleton c ++ r)
      else
        (formatAux tab rest (some c) indentLevel inString).map
          (fun r => String.singleton c ++ r)

/-- Embedding of `formatJson` (src/index.js lines 52-116): single left-to-right
scan starting outside any string at indentation level 0.  `none` models the
uncaught `RangeError` from `repeat`; every call site passes an explicit indent
string, so the `undefined` default for `indent` is not modelled. -/
def formatJson (source : String) (indent : String) : Option String :=
  formatAux indent source.data none 0 false

/-- The in-string flag scan of `formatJson` in isolation: the flag is updated
only in the double-quote case of the switch, through `quoteToggle`. -/
def inStringScan : List Char → Option Char → Bool → Bool
  | [], _, st => st
  | c :: rest, prev, st =>
      inStringScan rest (some c) (if c = '"' then quoteToggle prev st else st)

/-- The in-string flag of the `formatJson` scan after processing the first `i`
characters of the source. -/
def inStringAt (source : List Char) (i : Nat) : Bool :=
  inStringScan (source.take i) none false

/-- The predecessor character carried by the scan after consuming a chunk: the
chunk's last character, or the inherited predecessor for an empty chunk. -/
def lastOr : List Char → Option Char → Option Char
  | [], prev => prev
  | c :: l, _ => lastOr l (some c)

/-- Whitespace in the sense of the pretty-printer and of the round-trip
property: space, newline or tab. -/
def isWsChar (c : Char) : Bool := c = ' ' || c = '\n' || c = '\t'

/-- Deletion of every whitespace character from a string. -/
def stripWs (s : String) : String := ⟨s.data.filter (fun c => !isWsChar c)⟩

/-- Per-lint settings object (spec: LintSettings).  `source` is the
sort-before-validate (canonicalize) flag read by `lint` as `settings.source`;
it has no entry in `defaults`, so its base value is the falsy `undefined`,
modelled as `false`. -/
structure LintSettings where
  ignore : List String
  validate : Option String
  indent : String
  env : String
  quiet : Bool
  pretty : Bool
  source : Bool

/-- Embedding of `defaults` (src/index.js lines 22-29). -/
def defaults : LintSettings :=
  { ignore := ["node_modules/**/*"]
    validate := none
    indent := "  "
    env := "json-schema-draft-04"
    quiet := false
    pretty := false
    source := false }

/-- A possibly-partial settings object, as produced by the rc-file loader or
by explicit per-invocation options: each field is present or absent, and a
present field carries its value (for `validate`, possibly the explicit
`null`). -/
structure PartialSettings where
  ignore : Option (List String) := none
  validate : Option (Option String) := none
  indent : Option String := none
  env : Option String := none
  quiet : Option Bool := none
  pretty : Option Bool := none
  source : Option Bool := none

/-- Field-wise `Object.assign` over a base value, a config-file value and a
per-invocation value: the later object wins whenever its field is present. -/
def assignField {α : Type} (base : α) (c o : Option α) : α :=
  match o with
  | some v => v
  | none =>
      match c with
      | some v => v
      | none => base

/-- Embedding of the merge performed by `getSettings` (src/index.js lines
325-332): `Object.assign({}, defaults, configuration, options, {ignore})`,
where `ignore` is the list of keys of the parsed ini-style ignore file.  The
trailing `{ignore}` object is assigned last. -/
def getSettingsMerge (configuration options : PartialSettings)
    (ignoreKeys : List String) : LintSettings :=
  { ignore := ignoreKeys
    validate := assignField defaults.validate configuration.validate options.validate
    indent := assignField defaults.indent configuration.indent options.indent
    env := assignField defaults.env configuration.env options.env
    quiet := assignField defaults.quiet configuration.quiet options.quiet
    pretty := assignField defaults.pretty configuration.pretty options.pretty
    source := assignField false configuration.source options.source }

/-- Error value rejected by `lint`: the displayed message (null under quiet
mode) and the resolved file path (null for stdin).  The source also tags every
such error with `type = 'jsonlint'`; since the tag is the constant `'jsonlint'`
on every error leaving `lint`, it is not carried explicitly. -/
structure LintError where
  message : Option String
  file : Option String

/-- Outcome of the promise returned by `lint`: the executor either calls
`reject(error)` in its catch block, or runs to completion without ever calling
`resolve`, leaving the promise forever pending. -/
inductive LintOutcome where
  | pending : LintOutcome
  | rejected (e : LintError) : LintOutcome

/-- JavaScript template interpolation of the resolved source path
(`${absSourcePath}`): the `null` path of stdin input prints as `null`. -/
def pathDisplay : Option String → String
  | some p => p
  | none => "null"

/-- Embedding of the catch block of `lint` (src/index.js lines 280-284):
the caught error's message is nulled under quiet mode and otherwise prefixed
with the resolved path and a space; the resolved path is recorded on the
error. -/
def wrapCatch (quiet : Bool) (absPath : Option String) (msg : String) : LintError :=
  { message := if quiet then none else some (pathDisplay absPath ++ " " ++ msg)
    file := absPath }

/-- Embedding of `lint` (src/index.js lines 251-287).  Collaborators are
parameters: `resolvePath` models `path.resolve`, `parse` the jsonlint parser
(`Except.error` carries the parse error's native message), `validateEngine`
models `jjv(env)` plus `environment.validate` (argument order: environment
identifier, schema, parsed document; `none` means valid), `obtainSchema`
models the memoized schema fetch.  The second component collects the lines the
call writes to standard output (the pretty-printed text).  On the success path
the executor finishes without calling `resolve`, so the outcome is
`LintOutcome.pending`. -/
def lint (resolvePath : String → String)
    (parse : String → Except String Json)
    (validateEngine : String → Json → Json → Option VErrors)
    (obtainSchema : String → Json)
    (source : String) (sourcePath : Option String) (settings : LintSettings) :
    LintOutcome × List String :=
  let absSourcePath := sourcePath.map resolvePath
  match parse source with
  | .error msg => (.rejected (wrapCatch settings.quiet absSourcePath msg), [])
  | .ok parsedRaw =>
      let parsed := if settings.source then sortJson parsedRaw else parsedRaw
      let prettyStep : Sum (List String) String :=
        if settings.pretty && !settings.quiet then
          match formatJson source settings.indent with
          | some txt => .inl [txt]
          | none => .inr "Invalid array length"
        else .inl []
      match prettyStep with
      | .inr msg => (.rejected (wrapCatch settings.quiet absSourcePath msg), [])
      | .inl printed =>
          match settings.validate with
          | none => (.pending, printed)
          | some uri =>
              let schema := obtainSchema uri
              match validateEngine settings.env schema parsed with
              | none => (.pending, printed)
              | some errs =>
                  let text := String.intercalate "\n"
                    (("\"" ++ pathDisplay absSourcePath ++ "\" fails against schema \"" ++
                        uri ++ "\"") ::
                      ((schemaError errs schema).filter (fun m => m != "")).map
                        (fun m => "\t\t" ++ m))
                  (.rejected (wrapCatch settings.quiet absSourcePath text), printed)

/-- Embedding of the top-level catch in `main` (src/index.js lines 429-441)
for errors of type `jsonlint` (every error rejected by `lint` carries that
tag): the message is printed unless it is null, and the process exits with
code 1 either way.  Result: printed diagnostic lines and the exit code. -/
def topCatch (e : LintError) : List String × Nat :=
  ((match e.message with
    | some m => [m]
    | none => []), 1)

theorem attach_map_eq {α β : Type} (l : List α) (f : α → β) :
    l.attach.map (fun x => f x.1) = l.map f :=
  List.attach_map_coe l f

theorem attach_map_val_eq {α : Type} (l : List α) :
    l.attach.map Subtype.val = l := by
  have h := List.attach_map_coe l (fun x => x)
  simpa using h

theorem attach_flatMap_eq {α β : Type} (l : List α) (f : α → List β) :
    l.attach.flatMap (fun x => f x.1) = l.flatMap f := by
  calc l.attach.flatMap (fun x => f x.1)
      = (l.attach.map Subtype.val).flatMap f := (List.flatMap_map _ _ _).symm
    _ = l.flatMap f := by rw [attach_map_val_eq]

theorem attach_all_eq {α : Type} (l : List α) (f : α → Bool) :
    l.attach.all (fun x => f x.1) = l.all f := by
  rcases h : l.all f with _ | _
  · rw [Bool.eq_false_iff] at h ⊢
    intro hc
    apply h
    rw [List.all_eq_true] at hc ⊢
    intro x hx
    exact hc ⟨x, hx⟩ (List.mem_attach _ _)
  · rw [List.all_eq_true] at h ⊢
    intro x _
    exact h x.1 x.2

theorem sortJson_atom :
    sortJson .null = .null ∧ (∀ b, sortJson (.bool b) = .bool b) ∧
    (∀ n, sortJson (.num n) = .num n) ∧ (∀ s, sortJson (.str s) = .str s) := by
  refine ⟨?_, ?_, ?_, ?_⟩ <;> intros <;> simp [sortJson]

theorem sortJson_arr (items : List Json) :
    sortJson (.arr items) = .arr (items.map sortJson) := by
  rw [sortJson, attach_map_eq]

theorem sortJson_obj (entries : List (String × Json)) :
    sortJson (.obj entries) =
      .obj ((insertionSortJs (entries.map Prod.fst)).map
        (fun k => (k, sortJson ((entries.lookup k).getD .null)))) := by
  rw [sortJson]

theorem jsonWF_arr (items : List Json) :
    jsonWF (.arr items) = items.all jsonWF := by
  rw [jsonWF, attach_all_eq]

theorem jsonWF_obj (entries : List (String × Json)) :
    jsonWF (.obj entries) =
      (decide (entries.map Prod.fst).Nodup && entries.all (fun p => jsonWF p.2)) := by
  rw [jsonWF]
  congr 1
  have h := attach_all_eq entries (fun p => jsonWF p.2)
  exact h

theorem leaves_arr (items : List Json) :
    leaves (.arr items) = items.flatMap leaves := by
  rw [leaves, attach_flatMap_eq]

theorem leaves_obj (entries : List (String × Json)) :
    leaves (.obj entries) = entries.flatMap (fun p => leaves p.2) := by
  rw [leaves]
  exact attach_flatMap_eq entries (fun p => leaves p.2)

theorem jsCharListLe_total : ∀ as bs : List Char,
    jsCharListLe as bs = true ∨ jsCharListLe bs as = true := by
  intro as
  induction as with
  | nil => intro bs; left; rw [jsCharListLe.eq_def]
  | cons a as ih =>
    intro bs
    cases bs with
    | nil => right; rw [jsCharListLe.eq_def]
    | cons b bs =>
      rcases lt_trichotomy a b with h | h | h
      · left; simp [jsCharListLe, h]
      · subst h
        rcases ih bs with h2 | h2
        · left; simp [jsCharListLe, lt_irrefl, h2]
        · right; simp [jsCharListLe, lt_irrefl, h2]
      · right; simp [jsCharListLe, h]

theorem jsCharListLe_trans : ∀ as bs cs : List Char,
    jsCharListLe as bs = true → jsCharListLe bs cs = true → jsCharListLe as cs = true := by
  intro as
  induction as with
  | nil => intro bs cs _ _; rw [jsCharListLe.eq_def]
  | cons a as ih =>
    intro bs cs hab hbc
    cases bs with
    | nil => simp [jsCharListLe] at hab
    | cons b bs =>
      cases cs with
      | nil => simp [jsCharListLe] at hbc
      | cons c cs =>
        rcases lt_trichotomy a b with h1 | h1 | h1
        · rcases lt_trichotomy b c with h2 | h2 | h2
          · simp [jsCharListLe, lt_trans h1 h2]
          · subst h2; simp [jsCharListLe, h1]
          · simp [jsCharListLe, h2, not_lt_of_lt h2, lt_asymm h2] at hbc
        · subst h1
          rcases lt_trichotomy a c with h2 | h2 | h2
          · simp [jsCharListLe, h2]
          · subst h2
            simp [jsCharListLe, lt_irrefl] at hab hbc ⊢
            exact ih _ _ hab hbc
          · simp [jsCharListLe, lt_asymm h2, h2] at hbc
        · simp [jsCharListLe, lt_asymm h1, h1] at hab

theorem jsStrLe_total (a b : String) : jsStrLe a b = true ∨ jsStrLe b a = true :=
  jsCharListLe_total a.data b.data

theorem jsStrLe_trans {a b c : String} :
    jsStrLe a b = true → jsStrLe b c = true → jsStrLe a c = true :=
  jsCharListLe_trans a.data b.data c.data

theorem perm_orderedInsertJs (a : String) : ∀ l : List String,
    (orderedInsertJs a l).Perm (a :: l) := by
  intro l
  induction l with
  | nil => simp [orderedInsertJs]
  | cons b l ih =>
    rw [orderedInsertJs]
    by_cases h : jsStrLe a b = true
    · rw [if_pos h]
    · rw [if_neg h]
      exact (ih.cons b).trans (List.Perm.swap a b l)

theorem perm_insertionSortJs : ∀ l : List String, (insertionSortJs l).Perm l := by
  intro l
  induction l with
  | nil => rfl
  | cons a l ih =>
    rw [insertionSortJs]
    exact (perm_orderedInsertJs a (insertionSortJs l)).trans (ih.cons a)

/-- Sortedness of a key list under the JavaScript comparator. -/
def SortedLe (l : List String) : Prop := l.Pairwise (fun a b => jsStrLe a b = true)

theorem sortedLe_orderedInsertJs (a : String) : ∀ l : List String,
    SortedLe l → SortedLe (orderedInsertJs a l) := by
  intro l
  induction l with
  | nil => intro _; simp [orderedInsertJs, SortedLe]
  | cons b l ih =>
    intro h
    rw [SortedLe, List.pairwise_cons] at h
    obtain ⟨hb, hl⟩ := h
    rw [orderedInsertJs]
    by_cases hab : jsStrLe a b = true
    · rw [if_pos hab, SortedLe, List.pairwise_cons]
      constructor
      · intro x hx
        rcases List.mem_cons.mp hx with rfl | hx2
        · exact hab
        · exact jsStrLe_trans hab (hb x hx2)
      · exact List.pairwise_cons.mpr ⟨hb, hl⟩
    · rw [if_neg hab, SortedLe, List.pairwise_cons]
      have hba : jsStrLe b a = true := by
        rcases jsStrLe_total a b with h | h
        · exact absurd h hab
        · exact h
      constructor
      · intro x hx
        have hx2 := (perm_orderedInsertJs a l).mem_iff.mp hx
        rcases List.mem_cons.mp hx2 with rfl | hx3
        · exact hba
        · exact hb x hx3
      · exact ih hl

theorem sortedLe_insertionSortJs : ∀ l : List String, SortedLe (insertionSortJs l) := by
  intro l
  induction l with
  | nil => simp [insertionSortJs, SortedLe]
  | cons a l ih => rw [insertionSortJs]; exact sortedLe_orderedInsertJs a _ ih

theorem insertionSortJs_eq_self : ∀ l : List String, SortedLe l → insertionSortJs l = l := by
  intro l
  induction l with
  | nil => intro _; rfl
  | cons a l ih =>
    intro h
    rw [SortedLe, List.pairwise_cons] at h
    obtain ⟨ha, hl⟩ := h
    rw [insertionSortJs, ih hl]
    cases l with
    | nil => rfl
    | cons b l => rw [orderedInsertJs, if_pos (ha b (List.mem_cons_self b l))]

theorem lookup_mem {es : List (String × Json)} {k : String} {v : Json}
    (h : es.lookup k = some v) : ∃ a, (a, v) ∈ es := by
  induction es with
  | nil => simp [List.lookup] at h
  | cons p es ih =>
    obtain ⟨a, b⟩ := p
    cases hk : (k == a) with
    | true =>
      simp [List.lookup, hk] at h
      subst h
      exact ⟨a, List.mem_cons_self _ _⟩
    | false =>
      simp [List.lookup, hk] at h
      obtain ⟨a2, hm⟩ := ih h
      exact ⟨a2, List.mem_cons_of_mem _ hm⟩

theorem lookup_of_mem_nodup : ∀ {es : List (String × Json)} {k : String} {v : Json},
    (es.map Prod.fst).Nodup → (k, v) ∈ es → es.lookup k = some v := by
  intro es
  induction es with
  | nil => intro k v _ h; simp at h
  | cons p es ih =>
    intro k v hnd hm
    obtain ⟨a, b⟩ := p
    rw [List.map_cons, List.nodup_cons] at hnd
    obtain ⟨hna, hnd2⟩ := hnd
    rcases List.mem_cons.mp hm with heq | hm2
    · rw [Prod.mk.injEq] at heq
      obtain ⟨rfl, rfl⟩ := heq
      simp [List.lookup]
    · have hk : (k == a) = false := by
        by_contra hc
        rw [Bool.not_eq_false, beq_iff_eq] at hc
        subst hc
        exact hna (List.mem_map.mpr ⟨(k, v), hm2, rfl⟩)
      simp [List.lookup, hk]
      exact ih hnd2 hm2

theorem json_induction {P : Json → Prop}
    (hnull : P .null) (hbool : ∀ b, P (.bool b)) (hnum : ∀ n, P (.num n))
    (hstr : ∀ s, P (.str s))
    (harr : ∀ items, (∀ x ∈ items, P x) → P (.arr items))
    (hobj : ∀ entries, (∀ p ∈ entries, P p.2) → P (.obj entries)) :
    ∀ v, P v := by
  have key : ∀ n v, sizeOf v ≤ n → P v := by
    intro n
    induction n with
    | zero =>
      intro v hv
      exfalso
      cases v <;> simp at hv
    | succ n ih =>
      intro v _
      cases v with
      | null => exact hnull
      | bool b => exact hbool b
      | num m => exact hnum m
      | str s => exact hstr s
      | arr items =>
        apply harr
        intro x hx
        apply ih
        have h1 := List.sizeOf_lt_of_mem hx
        have h2 : sizeOf (Json.arr items) = 1 + sizeOf items := by simp
        omega
      | obj entries =>
        apply hobj
        intro p hp
        apply ih
        have h1 := List.sizeOf_lt_of_mem hp
        have h2 : sizeOf p.2 < sizeOf p := by
          obtain ⟨a, b⟩ := p
          simp only [Prod.mk.sizeOf_spec]
          omega
        have h3 : sizeOf (Json.obj entries) = 1 + sizeOf entries := by simp
        omega
  intro v
  exact key (sizeOf v) v (Nat.le_refl _)

theorem jsonWF_obj_parts {es : List (String × Json)} (h : jsonWF (.obj es) = true) :
    (es.map Prod.fst).Nodup ∧ ∀ p ∈ es, jsonWF p.2 = true := by
  rw [jsonWF_obj, Bool.and_eq_true, decide_eq_true_eq, List.all_eq_true] at h
  exact h

theorem jsonWF_arr_parts {items : List Json} (h : jsonWF (.arr items) = true) :
    ∀ x ∈ items, jsonWF x = true := by
  rw [jsonWF_arr, List.all_eq_true] at h
  exact h

theorem sortJson_idem_and_leaves : ∀ v, jsonWF v = true →
    sortJson (sortJson v) = sortJson v ∧ (leaves (sortJson v)).Perm (leaves v) := by
  intro v
  induction v using json_induction with
  | hnull => intro _; exact ⟨by simp [sortJson], by simp [sortJson]⟩
  | hbool b => intro _; exact ⟨by simp [sortJson], by simp [sortJson]⟩
  | hnum n => intro _; exact ⟨by simp [sortJson], by simp [sortJson]⟩
  | hstr s => intro _; exact ⟨by simp [sortJson], by simp [sortJson]⟩
  | harr items IH =>
    intro h
    have hvals := jsonWF_arr_parts h
    constructor
    · rw [sortJson_arr, sortJson_arr, List.map_map]
      congr 1
      apply List.map_congr_left
      intro x hx
      exact (IH x hx (hvals x hx)).1
    · rw [sortJson_arr, leaves_arr, leaves_arr, List.flatMap_map]
      apply List.Perm.flatMap_left
      intro x hx
      exact (IH x hx (hvals x hx)).2
  | hobj entries IH =>
    intro h
    obtain ⟨hnd, hvals⟩ := jsonWF_obj_parts h
    have hpermk := perm_insertionSortJs (entries.map Prod.fst)
    have hsorted := sortedLe_insertionSortJs (entries.map Prod.fst)
    have hndsk : ((insertionSortJs (entries.map Prod.fst)).map
        (fun k => (k, sortJson ((entries.lookup k).getD .null)))).map Prod.fst =
        insertionSortJs (entries.map Prod.fst) := by
      rw [List.map_map]
      exact List.map_id _
    have hndsk2 : (insertionSortJs (entries.map Prod.fst)).Nodup :=
      hpermk.nodup_iff.mpr hnd
    have hlook : ∀ k ∈ insertionSortJs (entries.map Prod.fst),
        ∃ v, (k, v) ∈ entries ∧ entries.lookup k = some v := by
      intro k hk
      have hk2 : k ∈ entries.map Prod.fst := hpermk.mem_iff.mp hk
      obtain ⟨p, hp, hp2⟩ := List.mem_map.mp hk2
      refine ⟨p.2, ?_, ?_⟩
      · rw [← hp2]; exact hp
      · exact lookup_of_mem_nodup hnd (by rw [← hp2]; exact hp)
    have hidem : ∀ k ∈ insertionSortJs (entries.map Prod.fst),
        sortJson (sortJson ((entries.lookup k).getD .null)) =
          sortJson ((entries.lookup k).getD .null) := by
      intro k hk
      obtain ⟨v, hv, hv2⟩ := hlook k hk
      rw [hv2, Option.getD_some]
      exact (IH (k, v) hv (hvals (k, v) hv)).1
    constructor
    · rw [sortJson_obj entries, sortJson_obj, hndsk,
        insertionSortJs_eq_self _ hsorted]
      congr 1
      apply List.map_congr_left
      intro k hk
      have hmem : (k, sortJson ((entries.lookup k).getD .null)) ∈
          (insertionSortJs (entries.map Prod.fst)).map
            (fun k => (k, sortJson ((entries.lookup k).getD .null))) :=
        List.mem_map.mpr ⟨k, hk, rfl⟩
      have hl : ((insertionSortJs (entries.map Prod.fst)).map
          (fun k => (k, sortJson ((entries.lookup k).getD .null)))).lookup k =
          some (sortJson ((entries.lookup k).getD .null)) :=
        lookup_of_mem_nodup (by rw [hndsk]; exact hndsk2) hmem
      rw [hl, Option.getD_some, hidem k hk]
    · rw [sortJson_obj entries, leaves_obj, leaves_obj, List.flatMap_map]
      have step1 : ((insertionSortJs (entries.map Prod.fst)).flatMap
          (fun k => leaves (sortJson ((entries.lookup k).getD .null)))).Perm
          ((entries.map Prod.fst).flatMap
            (fun k => leaves (sortJson ((entries.lookup k).getD .null)))) :=
        hpermk.flatMap_right _
      have step2 : ((entries.map Prod.fst).flatMap
          (fun k => leaves (sortJson ((entries.lookup k).getD .null)))) =
          entries.flatMap
            (fun p => leaves (sortJson ((entries.lookup p.1).getD .null))) := by
        rw [List.flatMap_map]
      have step3 : (entries.flatMap
          (fun p => leaves (sortJson ((entries.lookup p.1).getD .null)))).Perm
          (entries.flatMap (fun p => leaves p.2)) := by
        apply List.Perm.flatMap_left
        intro p hp
        have hl : entries.lookup p.1 = some p.2 :=
          lookup_of_mem_nodup hnd (by obtain ⟨a, b⟩ := p; exact hp)
        rw [hl, Option.getD_some]
        exact (IH p hp (hvals p hp)).2
      exact (step1.trans (step2 ▸ step3))

theorem data_singleton (c : Char) : (String.singleton c).data = [c] := rfl

theorem filter_nonWs_repeatStr (tab : String) (htab : ∀ c ∈ tab.data, isWsChar c = true) :
    ∀ n : Nat, (repeatStr tab n).data.filter (fun c => !isWsChar c) = [] := by
  intro n
  induction n with
  | zero => rfl
  | succ n ih =>
    rw [repeatStr, String.data_append, List.filter_append, ih, List.append_nil]
    rw [List.filter_eq_nil_iff]
    intro c hc
    rw [htab c hc]
    simp

theorem repeatJs_filter (tab : String) (htab : ∀ c ∈ tab.data, isWsChar c = true)
    (n : Int) (ind : String) (h : repeatJs tab n = some ind) :
    ind.data.filter (fun c => !isWsChar c) = [] := by
  rw [repeatJs] at h
  split at h
  · exact absurd h (by simp)
  · rw [Option.some.injEq] at h
    rw [← h]
    exact filter_nonWs_repeatStr tab htab n.toNat

theorem formatAux_strip (tab : String) (htab : ∀ c ∈ tab.data, isWsChar c = true) :
    ∀ (chars : List Char) (prev : Option Char) (level : Int) (inStr : Bool) (out : String),
      (∀ c ∈ chars, isWsChar c = false) →
      formatAux tab chars prev level inStr = some out →
      out.data.filter (fun c => !isWsChar c) = chars := by
  intro chars
  induction chars with
  | nil =>
    intro prev level inStr out _ hf
    rw [formatAux, Option.some.injEq] at hf
    rw [← hf]
    rfl
  | cons c rest ih =>
    intro prev level inStr out hnw hf
    have hc : isWsChar c = false := hnw c (List.mem_cons_self _ _)
    have hpc : (!isWsChar c) = true := by rw [hc]; rfl
    have hrest : ∀ x ∈ rest, isWsChar x = false := fun x hx => hnw x (List.mem_cons_of_mem _ hx)
    rw [formatAux] at hf
    by_cases h1 : c = '{' ∨ c = '['
    · rw [if_pos h1] at hf
      by_cases hs : inStr = true
      · rw [if_pos hs] at hf
        obtain ⟨r, hr, rfl⟩ := Option.map_eq_some'.mp hf
        have hr2 := ih (some c) level inStr r hrest hr
        simp [String.data_append, data_singleton, List.filter_append, List.filter_cons,
          hpc, hr2]
      · rw [if_neg hs] at hf
        cases hrep : repeatJs tab (level + 1) with
        | none => rw [hrep] at hf; exact absurd hf (by simp)
        | some ind =>
          rw [hrep] at hf
          obtain ⟨r, hr, rfl⟩ := Option.map_eq_some'.mp hf
          have hr2 := ih (some c) (level + 1) inStr r hrest hr
          have hind := repeatJs_filter tab htab _ _ hrep
          have hnl : (!isWsChar '\n') = false := rfl
          simp [String.data_append, data_singleton, List.filter_append, List.filter_cons,
            hpc, hr2, hind, hnl]
    · rw [if_neg h1] at hf
      by_cases h2 : c = '}' ∨ c = ']'
      · rw [if_pos h2] at hf
        by_cases hs : inStr = true
        · rw [if_pos hs] at hf
          obtain ⟨r, hr, rfl⟩ := Option.map_eq_some'.mp hf
          have hr2 := ih (some c) level inStr r hrest hr
          simp [String.data_append, data_singleton, List.filter_append, List.filter_cons,
            hpc, hr2]
        · rw [if_neg hs] at hf
          cases hrep : repeatJs tab (level - 1) with
          | none => rw [hrep] at hf; exact absurd hf (by simp)
          | some ind =>
            rw [hrep] at hf
            obtain ⟨r, hr, rfl⟩ := Option.map_eq_some'.mp hf
            have hr2 := ih (some c) (level - 1) inStr r hrest hr
            have hind := repeatJs_filter tab htab _ _ hrep
            have hnl : (!isWsChar '\n') = false := rfl
            have hd : ("\n").data = ['\n'] := rfl
            simp [String.data_append, data_singleton, List.filter_append, List.filter_cons,
              hpc, hr2, hind, hnl, hd]
      · rw [if_neg h2] at hf
        by_cases h3 : c = ','
        · rw [if_pos h3] at hf
          by_cases hs : inStr = true
          · rw [if_pos hs] at hf
            obtain ⟨r, hr, rfl⟩ := Option.map_eq_some'.mp hf
            have hr2 := ih (some c) level inStr r hrest hr
            simp [String.data_append, data_singleton, List.filter_append, List.filter_cons,
              hpc, hr2]
          · rw [if_neg hs] at hf
            cases hrep : repeatJs tab level with
            | none => rw [hrep] at hf; exact absurd hf (by simp)
            | some ind =>
              rw [hrep] at hf
              obtain ⟨r, hr, rfl⟩ := Option.map_eq_some'.mp hf
              have hr2 := ih (some c) level inStr r hrest hr
              have hind := repeatJs_filter tab htab _ _ hrep
              subst h3
              have hnl : (!isWsChar '\n') = false := rfl
              have hcm : (!isWsChar ',') = true := rfl
              have hd : (",\n").data = [',', '\n'] := rfl
              simp [String.data_append, List.filter_append, List.filter_cons,
                hr2, hind, hnl, hcm, hd]
        · rw [if_neg h3] at hf
          by_cases h4 : c = ':'
          · rw [if_pos h4] at hf
            by_cases hs : inStr = true
            · rw [if_pos hs] at hf
              obtain ⟨r, hr, rfl⟩ := Option.map_eq_some'.mp hf
              have hr2 := ih (some c) level inStr r hrest hr
              simp [String.data_append, data_singleton, List.filter_append, List.filter_cons,
                hpc, hr2]
            · rw [if_neg hs] at hf
              obtain ⟨r, hr, rfl⟩ := Option.map_eq_some'.mp hf
              have hr2 := ih (some c) level inStr r hrest hr
              subst h4
              have hsp : (!isWsChar ' ') = false := rfl
              have hcl : (!isWsChar ':') = true := rfl
              have hd : (": ").data = [':', ' '] := rfl
              simp [String.data_append, List.filter_append, List.filter_cons,
                hr2, hsp, hcl, hd]
          · rw [if_neg h4] at hf
            by_cases h5 : c = ' ' ∨ c = '\n' ∨ c = '\t'
            · exfalso
              rcases h5 with rfl | rfl | rfl <;> simp [isWsChar] at hc
            · rw [if_neg h5] at hf
              by_cases h6 : c = '"'
              · rw [if_pos h6] at hf
                obtain ⟨r, hr, rfl⟩ := Option.map_eq_some'.mp hf
                have hr2 := ih (some c) level (quoteToggle prev inStr) r hrest hr
                simp [String.data_append, data_singleton, List.filter_append, List.filter_cons,
                  hpc, hr2]
              · rw [if_neg h6] at hf
                obtain ⟨r, hr, rfl⟩ := Option.map_eq_some'.mp hf
                have hr2 := ih (some c) level inStr r hrest hr
                simp [String.data_append, data_singleton, List.filter_append, List.filter_cons,
                  hpc, hr2]

theorem lastOr_cons (c : Char) (l : List Char) (prev : Option Char) :
    lastOr (c :: l) prev = lastOr l (some c) := rfl

theorem lastOr_append_singleton : ∀ (l : List Char) (c : Char) (prev : Option Char),
    lastOr (l ++ [c]) prev = some c := by
  intro l
  induction l with
  | nil => intro c prev; rfl
  | cons d l ih => intro c prev; rw [List.cons_append, lastOr_cons]; exact ih c (some d)

theorem inStringScan_append : ∀ (l1 l2 : List Char) (prev : Option Char) (st : Bool),
    inStringScan (l1 ++ l2) prev st =
      inStringScan l2 (lastOr l1 prev) (inStringScan l1 prev st) := by
  intro l1
  induction l1 with
  | nil => intro l2 prev st; simp [inStringScan, lastOr]
  | cons c l1 ih =>
    intro l2 prev st
    rw [List.cons_append, inStringScan, ih, lastOr_cons]
    rw [inStringScan]

theorem inStringAt_succ (s : List Char) (i : Nat) (hi : i < s.length) :
    inStringAt s (i + 1) =
      (if s.get ⟨i, hi⟩ = '"' then quoteToggle (lastOr (s.take i) none) (inStringAt s i)
       else inStringAt s i) := by
  unfold inStringAt
  rw [List.take_succ, List.getElem?_eq_getElem hi]
  rw [show (some s[i]).toList = [s[i]] from rfl]
  rw [inStringScan_append]
  rw [inStringScan, inStringScan]
  rw [show s.get ⟨i, hi⟩ = s[i] from rfl]

theorem lastOr_take (s : List Char) (i : Nat) (hpos : 0 < i) (hi : i ≤ s.length) :
    lastOr (s.take i) none = some (s.get ⟨i - 1, by omega⟩) := by
  obtain ⟨j, rfl⟩ : ∃ j, i = j + 1 := ⟨i - 1, by omega⟩
  have hj : j < s.length := by omega
  rw [List.take_succ, List.getElem?_eq_getElem hj]
  rw [show (some s[j]).toList = [s[j]] from rfl]
  rw [lastOr_append_singleton]
  rfl

theorem intercalate_go_prepend : ∀ (t : List String) (a pre s : String),
    pre ++ String.intercalate.go a s t = String.intercalate.go (pre ++ a) s t := by
  intro t
  induction t with
  | nil => intro a pre s; simp [String.intercalate.go]
  | cons b t ih =>
    intro a pre s
    rw [String.intercalate.go, String.intercalate.go]
    simp only [String.append_assoc]
    exact ih (a ++ (s ++ b)) pre s

theorem intercalate_cons_prepend (pre a s : String) (l : List String) :
    pre ++ String.intercalate s (a :: l) = String.intercalate s ((pre ++ a) :: l) := by
  rw [String.intercalate, String.intercalate]
  exact intercalate_go_prepend l a pre s

theorem lint_printed (rp : String → String) (parse : String → Except String Json)
    (ve : String → Json → Json → Option VErrors) (g : String → Json)
    (src : String) (path : Option String) (s : LintSettings) :
    (lint rp parse ve g src path s).2 =
      (match parse src with
       | .error _ => []
       | .ok _ =>
           if s.pretty && !s.quiet then
             match formatJson src s.indent with
             | some txt => [txt]
             | none => []
           else []) := by
  unfold lint
  cases parse src with
  | error m => rfl
  | ok p =>
    dsimp only
    by_cases hb : (s.pretty && !s.quiet) = true
    · rw [if_pos hb, if_pos hb]
      cases formatJson src s.indent with
      | none => rfl
      | some txt =>
        cases s.validate with
        | none => rfl
        | some uri =>
          dsimp only
          cases ve s.env (g uri) (if s.source then sortJson p else p) <;> rfl
    · rw [if_neg hb, if_neg hb]
      cases s.validate with
      | none => rfl
      | some uri =>
        dsimp only
        cases ve s.env (g uri) (if s.source then sortJson p else p) <;> rfl

/-- C1: the spec states that a document whose text parses (and validates when a
schema is configured) reaches `Done` with a success `LintResult`.  The code
contradicts this: the promise executor of `lint` never invokes `resolve`, so on
the success path the promise stays pending forever and no success result is
ever produced.  Evaluated here at two passing inputs — one without a schema,
one with a schema that validates — `lint` yields `LintOutcome.pending` rather
than any success outcome (rejection is still reserved for parse or validation
failures). -/
theorem claim_C1_success_never_resolves :
    lint id (fun _ => Except.ok (Json.obj [("a", Json.num 1)])) (fun _ _ _ => none)
      (fun _ => Json.obj []) "\x7b\"a\":1\x7d" (some "doc.json") defaults =
      (LintOutcome.pending, []) ∧
    lint id (fun _ => Except.ok (Json.obj [("a", Json.num 1)])) (fun _ _ _ => none)
      (fun _ => Json.obj []) "\x7b\"a\":1\x7d" (some "doc.json")
      { defaults with validate := some "http://s" } =
      (LintOutcome.pending, []) :=
  ⟨rfl, rfl⟩

/-- C2 counterexample: with an empty per-file config, an explicit (CLI) ignore
value `["foo"]` and an ignore file parsing to no keys, the merged settings
carry `ignore = []` — the trailing `{ignore}` object of `Object.assign`
overrides the explicitly given value, so the claimed precedence (explicit
overrides win for every setting) is false for the ignore patterns. -/
theorem claim_C2_counterexample :
    (getSettingsMerge {} { ignore := some ["foo"] } []).ignore = [] ∧
    (getSettingsMerge {} { ignore := some ["foo"] } []).ignore ≠ ["foo"] := by
  exact ⟨rfl, by decide⟩

/-- C2 amended: for every setting other than the ignore patterns the per-file
settings object follows the claimed precedence — an explicitly given
(per-invocation) value wins over the config-file value, which wins over the
default — while the ignore patterns are always taken verbatim from the ignore
file's keys, overriding defaults, config-file and explicit values alike. -/
theorem claim_C2_settings_merge (c o : PartialSettings) (ks : List String) :
    (getSettingsMerge c o ks).ignore = ks ∧
    (∀ v, o.validate = some v → (getSettingsMerge c o ks).validate = v) ∧
    (∀ v, o.validate = none → c.validate = some v → (getSettingsMerge c o ks).validate = v) ∧
    (o.validate = none → c.validate = none →
      (getSettingsMerge c o ks).validate = defaults.validate) ∧
    (∀ v, o.indent = some v → (getSettingsMerge c o ks).indent = v) ∧
    (∀ v, o.indent = none → c.indent = some v → (getSettingsMerge c o ks).indent = v) ∧
    (o.indent = none → c.indent = none → (getSettingsMerge c o ks).indent = defaults.indent) ∧
    (∀ v, o.env = some v → (getSettingsMerge c o ks).env = v) ∧
    (∀ v, o.env = none → c.env = some v → (getSettingsMerge c o ks).env = v) ∧
    (o.env = none → c.env = none → (getSettingsMerge c o ks).env = defaults.env) ∧
    (∀ v, o.quiet = some v → (getSettingsMerge c o ks).quiet = v) ∧
    (∀ v, o.quiet = none → c.quiet = some v → (getSettingsMerge c o ks).quiet = v) ∧
    (o.quiet = none → c.quiet = none → (getSettingsMerge c o ks).quiet = defaults.quiet) ∧
    (∀ v, o.pretty = some v → (getSettingsMerge c o ks).pretty = v) ∧
    (∀ v, o.pretty = none → c.pretty = some v → (getSettingsMerge c o ks).pretty = v) ∧
    (o.pretty = none → c.pretty = none → (getSettingsMerge c o ks).pretty = defaults.pretty) := by
  refine ⟨rfl, ?_, ?_, ?_, ?_, ?_, ?_, ?_, ?_, ?_, ?_, ?_, ?_, ?_, ?_, ?_⟩ <;>
    (intros; simp_all [getSettingsMerge, assignField])

/-- Witness for C2 at concrete inputs: an explicit validate value wins, a
config-only validate value wins over the default, the default applies when both
are absent, and the merged ignore list equals the ignore file's keys. -/
theorem claim_C2_witness :
    (getSettingsMerge { validate := some (some "c.json") }
        { validate := some (some "o.json") } ["k"]).validate = some "o.json" ∧
    (getSettingsMerge { validate := some (some "c.json") } {} ["k"]).validate =
      some "c.json" ∧
    (getSettingsMerge {} {} ["k"]).validate = none ∧
    (getSettingsMerge {} {} ["k"]).ignore = ["k"] :=
  ⟨(claim_C2_settings_merge _ _ _).2.1 _ rfl,
   (claim_C2_settings_merge _ _ _).2.2.1 _ rfl rfl,
   (claim_C2_settings_merge _ _ _).2.2.2.1 rfl rfl,
   (claim_C2_settings_merge _ _ _).1⟩

unseal jsStr in
/-- C3: the spec's rule table demands the text `"<field>" must have at least
"<limit>" items` for a minItems violation, but the translator's template
(src/index.js line 164) spells it `at leat` — evaluated here at field `a` with
configured limit 2, the produced string differs from the claimed one exactly in
that word.  The surrounding templates (`minLength`, `minProperties`) spell
`at least` correctly, so the spec reflects the evident intent and the code's
`leat` is a typo. -/
theorem claim_C3_minItems_template :
    lex.minItems "a" (Json.num 1) "minItems" (Json.num 2) =
      "\"a\" must have at leat \"2\" items" ∧
    lex.minItems "a" (Json.num 1) "minItems" (Json.num 2) ≠
      "\"a\" must have at least \"2\" items" :=
  ⟨rfl, by decide⟩

/-- C10: the pretty-printer is not total — on the two-character source
consisting of two closing braces, the second closing brace drives the
indentation level to -2 and the indent-repeat helper is asked for a negative
array length, raising a RangeError (modelled by `none`): `repeat` applied at
count -2 fails, and so does the whole format scan. -/
theorem claim_C10_format_not_total :
    formatJson "\x7d\x7d" "  " = none ∧ repeatJs "  " (-2) = none :=
  ⟨rfl, rfl⟩

/-- C4 counterexample: the source `{"a":" "}` is minified valid JSON whose only
string value holds a space — no structural characters.  Formatting it and then
deleting every whitespace character also deletes the space inside the string
literal, producing `{"a":""}`, which differs from the original source; the
claim как stated is false. -/
theorem claim_C4_counterexample :
    formatJson "\x7b\"a\":\" \"\x7d" "  " = some "\x7b\n  \"a\": \" \"\n\x7d" ∧
    stripWs "\x7b\n  \"a\": \" \"\n\x7d" = "\x7b\"a\":\"\"\x7d" ∧
    "\x7b\"a\":\"\"\x7d" ≠ "\x7b\"a\":\" \"\x7d" :=
  ⟨rfl, rfl, by decide⟩

/-- C4 amended: for every source string containing no whitespace character at
all (in particular no whitespace inside string values) and every indent made
only of whitespace, if the formatter completes (as it does on any valid
minified JSON), deleting every whitespace character from its output restores
the original source exactly. -/
theorem claim_C4_roundtrip (src indent : String)
    (hsrc : ∀ c ∈ src.data, isWsChar c = false)
    (hind : ∀ c ∈ indent.data, isWsChar c = true)
    (out : String) (h : formatJson src indent = some out) :
    stripWs out = src := by
  have h2 := formatAux_strip indent hind src.data none 0 false out hsrc h
  unfold stripWs
  rw [h2]

/-- Witness for C4 at the minified source `{"a":1}` with a two-space indent:
stripping the whitespace from the formatted output restores the source. -/
theorem claim_C4_witness :
    stripWs "\x7b\n  \"a\": 1\n\x7d" = "\x7b\"a\":1\x7d" :=
  claim_C4_roundtrip "\x7b\"a\":1\x7d" "  " (by decide) (by decide) _ (by rfl)

/-- C5 counterexample: the one-character source consisting of a double quote
has an unescaped quote at position 0, yet the in-string flag does not toggle
there — the scan guards the toggle with `i > 0`, so the claim's "for every
position including the first character" is false. -/
theorem claim_C5_counterexample :
    "\"".data.get ⟨0, by decide⟩ = '"' ∧
    inStringAt "\"".data 1 = false ∧
    inStringAt "\"".data 0 = false ∧
    ¬ inStringAt "\"".data 1 = !(inStringAt "\"".data 0) := by
  exact ⟨rfl, rfl, rfl, by decide⟩

/-- C5 amended: during the scan, the in-string flag toggles at a double quote
exactly when the quote has a predecessor character (position at least 1) and
that predecessor is not a backslash; at position 0 a quote never toggles the
flag, and a backslash-preceded quote leaves it unchanged. -/
theorem claim_C5_quote_toggle (s : List Char) (i : Nat) (hi : i < s.length)
    (hq : s.get ⟨i, hi⟩ = '"') :
    (∀ hpos : 0 < i, s.get ⟨i - 1, by omega⟩ ≠ '\\' →
      inStringAt s (i + 1) = !(inStringAt s i)) ∧
    (∀ hpos : 0 < i, s.get ⟨i - 1, by omega⟩ = '\\' →
      inStringAt s (i + 1) = inStringAt s i) ∧
    (i = 0 → inStringAt s (i + 1) = inStringAt s i) := by
  refine ⟨?_, ?_, ?_⟩
  · intro hpos hesc
    rw [inStringAt_succ s i hi, if_pos hq, lastOr_take s i hpos (le_of_lt hi)]
    simp only [quoteToggle]
    rw [if_neg hesc]
  · intro hpos hesc
    rw [inStringAt_succ s i hi, if_pos hq, lastOr_take s i hpos (le_of_lt hi)]
    simp only [quoteToggle]
    rw [if_pos hesc]
  · intro h0
    subst h0
    rw [inStringAt_succ s 0 hi, if_pos hq]
    rfl

/-- Witness for C5 at the source `a"`: the quote at position 1 follows the
non-backslash character `a`, and the flag toggles from false to true. -/
theorem claim_C5_witness :
    inStringAt "a\"".data (1 + 1) = !(inStringAt "a\"".data 1) :=
  (claim_C5_quote_toggle "a\"".data 1 (by decide) (by decide)).1 (by decide) (by decide)

/-- C6: the value handed to the validation engine is the key-sorted parsed
value exactly when the canonicalize flag (`settings.source`) is set, and the
unsorted parsed value otherwise — two engines that agree on that one value
yield identical lint results — while the pretty-printed text emitted by the
pipeline is unaffected by the flag either way (the printer runs on the raw
source text). -/
theorem claim_C6_canonicalize_flag
    (rp : String → String) (parse : String → Except String Json)
    (v1 v2 : String → Json → Json → Option VErrors) (g : String → Json)
    (src : String) (path : Option String) (s : LintSettings) (p : Json)
    (hp : parse src = Except.ok p)
    (hagree : ∀ uri, s.validate = some uri →
      v1 s.env (g uri) (if s.source then sortJson p else p) =
      v2 s.env (g uri) (if s.source then sortJson p else p)) :
    lint rp parse v1 g src path s = lint rp parse v2 g src path s ∧
    (lint rp parse v1 g src path { s with source := true }).2 =
      (lint rp parse v1 g src path { s with source := false }).2 := by
  constructor
  · unfold lint
    rw [hp]
    cases hv : s.validate with
    | none => simp only [hv]
    | some uri =>
      simp only [hv]
      rw [hagree uri hv]
  · rw [lint_printed, lint_printed]

/-- Witness for C6 at a concrete run with the canonicalize flag set and a
configured schema. -/
theorem claim_C6_witness :
    (lint id (fun _ => Except.ok (Json.num 1)) (fun _ _ _ => none) (fun _ => Json.obj [])
        "1" none { defaults with validate := some "http://s", source := true } =
      lint id (fun _ => Except.ok (Json.num 1)) (fun _ _ _ => none) (fun _ => Json.obj [])
        "1" none { defaults with validate := some "http://s", source := true }) ∧
    (lint id (fun _ => Except.ok (Json.num 1)) (fun _ _ _ => none) (fun _ => Json.obj [])
        "1" none { { defaults with validate := some "http://s", source := true } with
          source := true }).2 =
      (lint id (fun _ => Except.ok (Json.num 1)) (fun _ _ _ => none) (fun _ => Json.obj [])
        "1" none { { defaults with validate := some "http://s", source := true } with
          source := false }).2 :=
  claim_C6_canonicalize_flag id _ _ _ _ "1" none
    { defaults with validate := some "http://s", source := true } (Json.num 1)
    rfl (fun _ _ => rfl)

/-- C7: whenever the quiet flag is set and a document fails to parse or fails
validation, the rejected error carries a null message, the top-level handler
prints no diagnostic line, and the process still exits with code 1 — quiet
suppresses the text but never the failure outcome. -/
theorem claim_C7_quiet_failure (rp : String → String) (parse : String → Except String Json)
    (ve : String → Json → Json → Option VErrors) (g : String → Json)
    (src : String) (path : Option String) (s : LintSettings)
    (hq : s.quiet = true)
    (hfail : (∃ m, parse src = Except.error m) ∨
      (∃ p uri errs, parse src = Except.ok p ∧ s.validate = some uri ∧
        ve s.env (g uri) (if s.source then sortJson p else p) = some errs)) :
    ∃ e, lint rp parse ve g src path s = (.rejected e, []) ∧ e.message = none ∧
      topCatch e = ([], 1) := by
  have hb : (s.pretty && !s.quiet) = false := by rw [hq]; simp
  rcases hfail with ⟨m, hm⟩ | ⟨p, uri, errs, hp, hv, hve⟩
  · refine ⟨wrapCatch s.quiet (path.map rp) m, ?_, ?_, ?_⟩
    · unfold lint
      rw [hm]
    · simp [wrapCatch, hq]
    · simp [topCatch, wrapCatch, hq]
  · unfold lint
    rw [hp]
    simp only [hb, hv, hve, Bool.false_eq_true, if_false]
    refine ⟨_, rfl, ?_, ?_⟩
    · simp [wrapCatch, hq]
    · simp [topCatch, wrapCatch, hq]

/-- Witness for C7 at a concrete parse failure under quiet mode. -/
theorem claim_C7_witness :
    ∃ e, lint id (fun _ => Except.error "Unexpected token") (fun _ _ _ => none)
        (fun _ => Json.obj []) "x" (some "a.json") { defaults with quiet := true } =
        (.rejected e, []) ∧ e.message = none ∧ topCatch e = ([], 1) :=
  claim_C7_quiet_failure id _ _ _ "x" (some "a.json") { defaults with quiet := true }
    rfl (Or.inl ⟨"Unexpected token", rfl⟩)

/-- C8: for every well-formed JSON value tree (each object's keys pairwise
distinct, as a JSON parse guarantees), `sort` is idempotent and `sort v` holds
exactly the same multiset of leaf values as `v` — it differs from `v` only in
the ordering of object keys. -/
theorem claim_C8_sort_idempotent (v : Json) (h : jsonWF v = true) :
    sortJson (sortJson v) = sortJson v ∧ (leaves (sortJson v)).Perm (leaves v) :=
  sortJson_idem_and_leaves v h

unseal jsonWF in
/-- Witness for C8 at the two-key object with keys in reverse order. -/
theorem claim_C8_witness :
    jsonWF (Json.obj [("b", Json.num 1), ("a", Json.num 2)]) = true ∧
    (sortJson (sortJson (Json.obj [("b", Json.num 1), ("a", Json.num 2)])) =
        sortJson (Json.obj [("b", Json.num 1), ("a", Json.num 2)]) ∧
      (leaves (sortJson (Json.obj [("b", Json.num 1), ("a", Json.num 2)]))).Perm
        (leaves (Json.obj [("b", Json.num 1), ("a", Json.num 2)]))) :=
  ⟨rfl, claim_C8_sort_idempotent _ rfl⟩

/-- C9 counterexample: at a concrete failing validation in non-quiet mode, the
printed block's first line is not the bare header `"<path>" fails against
schema "<uri>"` — the catch block of `lint` prefixes the whole message with
the resolved path and a space, so the first printed line starts with
`/x/a.json ` before the quoted header (and the per-field lines are indented
with two tab characters). -/
theorem claim_C9_counterexample :
    lint id (fun _ => Except.ok (Json.obj []))
      (fun _ _ _ => some [("a", [("required", Json.bool true)])])
      (fun _ => Json.obj [])
      "\x7b\x7d" (some "/x/a.json")
      { defaults with validate := some "http://s" } =
    (LintOutcome.rejected
      { message := some "/x/a.json \"/x/a.json\" fails against schema \"http://s\"\n\t\t\"a\" is required but unset"
        file := some "/x/a.json" }, []) ∧
    ("/x/a.json \"/x/a.json\" fails against schema \"http://s\"\n\t\t\"a\" is required but unset".data.head? =
      some '/') ∧
    ¬ ("\"/x/a.json\" fails against schema \"http://s\"".data.isPrefixOf
      "/x/a.json \"/x/a.json\" fails against schema \"http://s\"\n\t\t\"a\" is required but unset".data = true) := by
  exact ⟨rfl, rfl, by decide⟩

/-- C9 amended: for every file failing schema validation in non-quiet mode —
the text parses, a schema is configured, the engine reports violations, and,
when pretty printing is enabled, the pretty-print step completes (otherwise the
document fails with the formatter's own error before validation runs) — the
printed diagnostic block is a single string whose first line is the resolved
absolute path, a space, and then the header `"<path>" fails against schema
"<uri>"`, followed by one line per field violation in engine-discovery order,
each indented with two tab characters; the handler exits with code 1. -/
theorem claim_C9_failure_block (rp : String → String) (parse : String → Except String Json)
    (ve : String → Json → Json → Option VErrors) (g : String → Json)
    (src : String) (path : Option String) (s : LintSettings) (uri : String)
    (p : Json) (errs : VErrors)
    (hq : s.quiet = false)
    (hv : s.validate = some uri) (hp : parse src = Except.ok p)
    (hve : ve s.env (g uri) (if s.source then sortJson p else p) = some errs)
    (hfmt : s.pretty = true → formatJson src s.indent ≠ none) :
    ∃ e printed, lint rp parse ve g src path s = (.rejected e, printed) ∧
      (topCatch e).1 = [String.intercalate "\n"
        (((pathDisplay (path.map rp) ++ " ") ++
            ("\"" ++ pathDisplay (path.map rp) ++ "\" fails against schema \"" ++ uri ++ "\"")) ::
          ((schemaError errs (g uri)).filter (fun m => m != "")).map (fun m => "\t\t" ++ m))] ∧
      (topCatch e).2 = 1 := by
  unfold lint
  rw [hp]
  by_cases hb : (s.pretty && !s.quiet) = true
  · have hpr : s.pretty = true := by
      cases hsp : s.pretty with
      | true => rfl
      | false => rw [hsp] at hb; simp at hb
    cases hfmt2 : formatJson src s.indent with
    | none => exact absurd hfmt2 (hfmt hpr)
    | some txt =>
      simp only [hb, if_true, hfmt2, hv, hve]
      refine ⟨_, _, rfl, ?_, rfl⟩
      simp only [topCatch, wrapCatch, hq, if_false, Bool.false_eq_true]
      rw [intercalate_cons_prepend]
  · have hb2 : (s.pretty && !s.quiet) = false := by
      cases h : (s.pretty && !s.quiet) with
      | false => rfl
      | true => exact absurd h hb
    simp only [hb2, Bool.false_eq_true, if_false, hv, hve]
    refine ⟨_, _, rfl, ?_, rfl⟩
    simp only [topCatch, wrapCatch, hq, if_false, Bool.false_eq_true]
    rw [intercalate_cons_prepend]

/-- Witness for C9 at a concrete failing validation with one required-rule
violation, with pretty printing enabled and completing. -/
theorem claim_C9_witness :
    ∃ e printed, lint id (fun _ => Except.ok (Json.obj []))
        (fun _ _ _ => some [("a", [("required", Json.bool true)])])
        (fun _ => Json.obj []) "\x7b\x7d" (some "/y/b.json")
        { defaults with validate := some "http://sch", pretty := true } =
        (.rejected e, printed) ∧
      (topCatch e).1 = [String.intercalate "\n"
        (((pathDisplay (some "/y/b.json") ++ " ") ++
            ("\"" ++ pathDisplay (some "/y/b.json") ++ "\" fails against schema \"" ++
              "http://sch" ++ "\"")) ::
          ((schemaError [("a", [("required", Json.bool true)])] (Json.obj [])).filter
            (fun m => m != "")).map (fun m => "\t\t" ++ m))] ∧
      (topCatch e).2 = 1 :=
  claim_C9_failure_block id _ _ _ "\x7b\x7d" (some "/y/b.json")
    { defaults with validate := some "http://sch", pretty := true } "http://sch" (Json.obj [])
    [("a", [("required", Json.bool true)])] rfl rfl rfl rfl (fun _ => by decide)
